import Mathlib

/-!
Shallow embedding of the skill-matching core of the resume-analyzer repository.

The embedded functions are:
* `extract_keywords` and `match_resume_to_job` from `match_skills.py`;
* `normalize_tokens`, `fuzzy_similarity` and `compute_skill_match_score` from `app.py`;
* `create_application` from `db.py`.

Modelling conventions, stated once here and referenced from the doc comments below:
* Strings are Lean `String`s (lists of characters); character classes (`isalpha`,
  `isalnum`, `\w`, `\s`, `str.lower`) are modelled over the ASCII range, which is the
  range exercised by the data of the repository (skill names, resume words).
* `nltk.word_tokenize` is modelled as whitespace splitting.  In `extract_keywords` the
  text is stripped of all non-word, non-space characters before tokenization, and on
  such text the Punkt/Treebank tokenizer coincides with whitespace splitting.
* Python `set` iteration order is unspecified (CPython orders string elements by a
  per-process randomized hash).  `pySetList` canonically represents `list(set(xs))`
  by `List.dedup`; only the multiset/set content of such lists is meaningful.
* Python floats are modelled as rationals; `round(x, 2)` is modelled by `pyRound2`
  (round to the nearest multiple of 1/100; the tie, which Python resolves to even,
  is resolved upward — no statement below depends on the tie case).
* `difflib.SequenceMatcher.ratio` is modelled without the autojunk heuristic, which
  only triggers on strings of length at least 200.
-/

set_option maxRecDepth 8000

namespace ResumeAnalyzer

/-- Pairing of the 26 ASCII uppercase letters with their lowercase forms; the basis of
the ASCII model of Python case handling. -/
def lowerPairs : List (Char × Char) :=
  [('A', 'a'), ('B', 'b'), ('C', 'c'), ('D', 'd'), ('E', 'e'), ('F', 'f'), ('G', 'g'),
   ('H', 'h'), ('I', 'i'), ('J', 'j'), ('K', 'k'), ('L', 'l'), ('M', 'm'), ('N', 'n'),
   ('O', 'o'), ('P', 'p'), ('Q', 'q'), ('R', 'r'), ('S', 's'), ('T', 't'), ('U', 'u'),
   ('V', 'v'), ('W', 'w'), ('X', 'x'), ('Y', 'y'), ('Z', 'z')]

/-- ASCII uppercase letter test. -/
def isUpperChar (c : Char) : Bool := lowerPairs.any (fun p => p.1 == c)

/-- ASCII lowercase letter test. -/
def isLowerChar (c : Char) : Bool := lowerPairs.any (fun p => p.2 == c)

/-- The ten decimal digit characters. -/
def digitChars : List Char := ['0', '1', '2', '3', '4', '5', '6', '7', '8', '9']

/-- Decimal digit test. -/
def isDigitChar (c : Char) : Bool := digitChars.contains c

/-- Model of Python `str.isalpha` on a single character (ASCII model). -/
def isAlphaChar (c : Char) : Bool := isUpperChar c || isLowerChar c

/-- Model of Python `str.isalnum` on a single character (ASCII model). -/
def isAlnumChar (c : Char) : Bool := isAlphaChar c || isDigitChar c

/-- Model of the regex class `\s` / Python `str.split()` whitespace (ASCII model). -/
def isSpaceChar (c : Char) : Bool := [' ', '\t', '\n', '\x0d', '\x0b', '\x0c'].contains c

/-- Model of the regex class `\w` (ASCII model): alphanumeric or underscore. -/
def isWordChar (c : Char) : Bool := isAlnumChar c || c == '_'

/-- Model of Python `str.lower` on a single character (ASCII model). -/
def pyToLowerChar (c : Char) : Char :=
  match lowerPairs.find? (fun p => p.1 == c) with
  | some p => p.2
  | none => c

/-- Model of Python `str.lower` (ASCII model). -/
def pyLower (s : String) : String := ⟨s.data.map pyToLowerChar⟩

/-- Model of Python `str.strip` (no argument): remove leading and trailing whitespace. -/
def pyStrip (s : String) : String :=
  ⟨((s.data.dropWhile isSpaceChar).reverse.dropWhile isSpaceChar).reverse⟩

/-- Model of Python `str.isalpha`: nonempty and all characters alphabetic. -/
def pyIsAlpha (s : String) : Bool := !s.data.isEmpty && s.data.all isAlphaChar

/-- Model of Python `str.isalnum`: nonempty and all characters alphanumeric. -/
def pyIsAlnum (s : String) : Bool := !s.data.isEmpty && s.data.all isAlnumChar

/-- Accumulator-passing whitespace splitter over a character list. -/
def wordsAux : List Char → List Char → List (List Char)
  | [], acc => if acc.isEmpty then [] else [acc.reverse]
  | c :: cs, acc =>
    if isSpaceChar c then
      if acc.isEmpty then wordsAux cs [] else acc.reverse :: wordsAux cs []
    else wordsAux cs (c :: acc)

/-- Model of `nltk.word_tokenize`: split into maximal whitespace-free words (see the
module conventions; exact for punctuation-free text, which is what `extract_keywords`
feeds it). -/
def pyWords (s : String) : List String := (wordsAux s.data []).map (fun l => (⟨l⟩ : String))

/-- The NLTK English stopword list loaded by both `match_skills.py` (`stop_words`) and
`app.py` (`STOPWORDS`).  Entries containing an apostrophe (the negated auxiliary
forms) are omitted: in both modules the membership test runs on tokens already stripped of every
non-word character (`extract_keywords`) or restricted to `[a-z0-9#+\-.]`
(`normalize_tokens`), so a token can never contain an apostrophe and those entries are
unreachable. -/
def stop_words : List String :=
  ["i", "me", "my", "myself", "we", "our", "ours", "ourselves", "you", "your", "yours",
   "yourself", "yourselves", "he", "him", "his", "himself", "she", "her", "hers",
   "herself", "it", "its", "itself", "they", "them", "their", "theirs", "themselves",
   "what", "which", "who", "whom", "this", "that", "these", "those", "am", "is", "are",
   "was", "were", "be", "been", "being", "have", "has", "had", "having", "do", "does",
   "did", "doing", "a", "an", "the", "and", "but", "if", "or", "because", "as", "until",
   "while", "of", "at", "by", "for", "with", "about", "against", "between", "into",
   "through", "during", "before", "after", "above", "below", "to", "from", "up", "down",
   "in", "out", "on", "off", "over", "under", "again", "further", "then", "once", "here",
   "there", "when", "where", "why", "how", "all", "any", "both", "each", "few", "more",
   "most", "other", "some", "such", "no", "nor", "not", "only", "own", "same", "so",
   "than", "too", "very", "s", "t", "can", "will", "just", "don", "should", "now", "d",
   "ll", "m", "o", "re", "ve", "y", "ain", "aren", "couldn", "didn", "doesn", "hadn",
   "hasn", "haven", "isn", "ma", "mightn", "mustn", "needn", "shan", "shouldn", "wasn",
   "weren", "won", "wouldn"]

/-- Canonical representative of Python `list(set(xs))`: deduplicate.  CPython iterates
a set of strings in a per-process hash-randomized order, so no particular order is
guaranteed by the source; only the set content of the result is meaningful. -/
def pySetList (l : List String) : List String := l.dedup

/-- Model of `extract_keywords` from `match_skills.py`: lowercase, delete every
character that is neither a word character nor whitespace, tokenize, keep alphabetic
non-stopword tokens longer than one character, and deduplicate via `set`. -/
def extract_keywords (text : String) : List String :=
  if text = "" then []
  else
    let cleaned : List Char :=
      ((pyLower text).data).filter (fun c => isWordChar c || isSpaceChar c)
    let tokens : List String := (wordsAux cleaned []).map (fun l => (⟨l⟩ : String))
    let keywords : List String := tokens.filter
      (fun w => pyIsAlpha w && !(decide (w ∈ stop_words)) && decide (1 < w.length))
    pySetList keywords

/-- Character class of the regex `[^a-z0-9#+\-\.]` deletion in `normalize_tokens`:
a character survives iff it is a lowercase letter, a digit, or one of `# + - .`. -/
def ntKeepChar (c : Char) : Bool :=
  isLowerChar c || isDigitChar c || ['#', '+', '-', '.'].contains c

/-- Model of `normalize_tokens` from `app.py`: lowercase, tokenize, delete from each
token every character outside `[a-z0-9#+\-.]`, keep tokens that are nonempty,
alphanumeric or containing one of `+ # - .`, and not stopwords; return as a `set`. -/
def normalize_tokens (text : String) : List String :=
  let tokens : List String := pyWords (pyLower text)
  let ws : List String := tokens.map (fun t => (⟨t.data.filter ntKeepChar⟩ : String))
  let kept : List String := ws.filter
    (fun w => !w.data.isEmpty
      && (pyIsAlnum w || w.data.any (fun c => ['+', '#', '-', '.'].contains c))
      && !(decide (w ∈ stop_words)))
  pySetList kept

/-- Sanity evaluation of `extract_keywords` on a resume-like phrase: punctuation and
stopwords are dropped, case is folded, short tokens removed. -/
theorem ev_extract_sample : extract_keywords "Experienced Python developer, with SQL!" =
    ["experienced", "python", "developer", "sql"] := by decide

/-- Sanity evaluation of `normalize_tokens`: symbols from `#+-.` and digits survive. -/
theorem ev_normalize_sample : normalize_tokens "The C++ dev, 2 yrs" =
    ["c++", "dev", "2", "yrs"] := by decide

/-- Length of the common prefix of two character lists. -/
def commonPrefixLen : List Char → List Char → Nat
  | a :: as, b :: bs => if a = b then commonPrefixLen as bs + 1 else 0
  | _, _ => 0

/-- Model of `difflib.SequenceMatcher.find_longest_match` over whole sequences (no junk
characters, no autojunk — see the module conventions): the triple `(i, j, k)` with
`a[i:i+k] = b[j:j+k]`, `k` maximal, and among those the least `i`, then the least `j`. -/
def findLongestMatch (a b : List Char) : Nat × Nat × Nat :=
  (List.range a.length).foldl (fun best i =>
    (List.range b.length).foldl (fun best j =>
      let k := commonPrefixLen (a.drop i) (b.drop j)
      if best.2.2 < k then (i, j, k) else best) best) (0, 0, 0)

/-- Total size of the matching blocks found by `difflib.SequenceMatcher`: recursively
take the longest match and recurse on the pieces to its left and right.  The fuel
bounds the recursion depth; every recursive call strictly shortens the first list, so
`a.length + 1` units of fuel always suffice (see `matchTotal`). -/
def matchTotalFuel : Nat → List Char → List Char → Nat
  | 0, _, _ => 0
  | fuel + 1, a, b =>
    let m := findLongestMatch a b
    if m.2.2 = 0 then 0
    else
      matchTotalFuel fuel (a.take m.1) (b.take m.2.1) + m.2.2 +
        matchTotalFuel fuel (a.drop (m.1 + m.2.2)) (b.drop (m.2.1 + m.2.2))

/-- Total matched size `M` used by `SequenceMatcher.ratio`. -/
def matchTotal (a b : List Char) : Nat := matchTotalFuel (a.length + 1) a b

/-- Model of `difflib.SequenceMatcher.ratio`: `2M / (len a + len b)`, and `1` when both
sequences are empty (that case is unreachable from `fuzzy_similarity`, which guards
empty arguments). -/
def smScore (a b : List Char) : ℚ :=
  if a.length + b.length = 0 then 1
  else 2 * (matchTotal a b : ℚ) / ((a.length : ℚ) + (b.length : ℚ))

/-- Model of `fuzzy_similarity` from `app.py`: `0` when either string is empty, else
the `SequenceMatcher` ratio of the two lowercased strings. -/
def fuzzy_similarity (a b : String) : ℚ :=
  if a = "" ∨ b = "" then 0
  else smScore (pyLower a).data (pyLower b).data

/-- Exact-overlap test of the per-skill loop of `compute_skill_match_score`: the
normalized skill tokens are nonempty and meet the resume token set. -/
def skill_is_exact (resume_tokens : List String) (skill : String) : Bool :=
  let skill_tokens := normalize_tokens (pyStrip (pyLower skill))
  !skill_tokens.isEmpty && skill_tokens.any (fun t => decide (t ∈ resume_tokens))

/-- The fuzzy score `fscore` of the per-skill loop of `compute_skill_match_score`: the
larger of the fuzzy similarity of the skill to the whole resume text and the best
fuzzy similarity to an individual resume token.  The Python `max(..., default=0)` over the
token set is modelled by a fold from `0`; similarities are nonnegative, so the fold
computes the same value. -/
def skill_fscore (resume_text : String) (resume_tokens : List String) (skill : String) : ℚ :=
  let skill_norm := pyStrip (pyLower skill)
  let fscore_text := fuzzy_similarity skill_norm resume_text
  let fscore_tokens :=
    resume_tokens.foldl (fun acc t => max acc (fuzzy_similarity skill_norm t)) 0
  max fscore_text fscore_tokens

/-- Classification of one required skill by `compute_skill_match_score`: matched iff
exact token overlap, or fuzzy score at least `0.7`. -/
def skill_matched (resume_text : String) (resume_tokens : List String) (skill : String) : Bool :=
  skill_is_exact resume_tokens skill
    || decide ((7 : ℚ) / 10 ≤ skill_fscore resume_text resume_tokens skill)

/-- Contribution of one required skill to the `partial_effective` sum of
`compute_skill_match_score`: a skill that is not matched but has fuzzy score in
`[0.45, 0.7)` contributes that score; every other skill contributes `0`.  (A fuzzy
match with score `at least 0.7` is appended to the `partial_matches` accumulator in the
source, but the `score < 0.7` filter of `partial_effective` discards it.) -/
def skill_credit (resume_text : String) (resume_tokens : List String) (skill : String) : ℚ :=
  if skill_matched resume_text resume_tokens skill then 0
  else if (9 : ℚ) / 20 ≤ skill_fscore resume_text resume_tokens skill then
    skill_fscore resume_text resume_tokens skill
  else 0

/-- The `partial_effective` sum of `compute_skill_match_score`. -/
def fuzz_credit_total (resume_text : String) (resume_tokens : List String)
    (job_skills : List String) : ℚ :=
  (job_skills.map (skill_credit resume_text resume_tokens)).sum

/-- Model of Python `round(x, 2)`: round to the nearest multiple of `1/100` (module
conventions note the tie case). -/
def pyRound2 (x : ℚ) : ℚ := ((round (x * 100) : ℤ) : ℚ) / 100

/-- Model of `compute_skill_match_score` from `app.py`: classify every required skill
as matched or missing (in input order), then score
`round(100 * (exact_count + partial_effective) / max(len(job_skills), 1), 2)`. -/
def compute_skill_match_score (resume_text : String) (job_skills : List String) :
    List String × List String × ℚ :=
  let resume_tokens := normalize_tokens resume_text
  let matched := job_skills.filter (skill_matched resume_text resume_tokens)
  let missing := job_skills.filter (fun s => !skill_matched resume_text resume_tokens s)
  let exact_count := matched.length
  let credit := fuzz_credit_total resume_text resume_tokens job_skills
  let total : ℚ := ((max job_skills.length 1 : ℕ) : ℚ)
  let raw_ratio := ((exact_count : ℚ) + credit) / total
  (matched, missing, pyRound2 (raw_ratio * 100))

set_option linter.unusedVariables false in
/-- Model of `match_resume_to_job` from `match_skills.py`.  The `model` argument (the
sentence-transformer handle) is accepted, as in the source, and never used: the
semantic-similarity branch of the source is commented out.  Set results are
represented per `pySetList`. -/
def match_resume_to_job {α : Type u} (resume_keywords jd_skills : List String)
    (model : α) : List String × List String × ℚ :=
  if resume_keywords = [] ∨ jd_skills = [] then ([], jd_skills, 0)
  else
    let resume_skills_set := resume_keywords.dedup
    let jd_skills_set := jd_skills.dedup
    let matched_skills := pySetList
      (resume_skills_set.filter (fun s => decide (s ∈ jd_skills_set)))
    let missing_skills := pySetList
      (jd_skills_set.filter (fun s => !(decide (s ∈ resume_skills_set))))
    if jd_skills_set = [] then ([], [], 100)
    else
      (matched_skills, missing_skills,
        ((matched_skills.length : ℚ) / (jd_skills_set.length : ℚ)) * 100)

/-- Row of the `applications` table of `db.py`, restricted to the fields
`create_application` sets (the autoincrement id and the upload timestamp are assigned
by the database layer and carry no logic). -/
structure Application where
  user_id : Int
  candidate_name : String
  candidate_email : String
  phone : String
  skills : String
  job_role : String
  match_score : ℚ
  phase : String
deriving DecidableEq

/-- Model of `create_application` from `db.py`: build the row that is persisted, with
`skills` comma-joined and `phase` set to `"Round 1"` when `match_score > 70` and to
`"Rejected"` otherwise. -/
def create_application (user_id : Int) (candidate_name candidate_email phone : String)
    (skills : List String) (job_role : String) (match_score : ℚ) : Application :=
  ⟨user_id, candidate_name, candidate_email, phone, String.intercalate "," skills,
    job_role, match_score, if 70 < match_score then "Round 1" else "Rejected"⟩

/-- Evaluation rule for `fuzzy_similarity` at concrete inputs: the character-level
quantities (lengths and total match size) are supplied as hypotheses that `decide`
can settle, leaving only rational arithmetic. -/
theorem fuzzy_similarity_eval (a b : String) (m la lb : ℕ)
    (ha : a ≠ "") (hb : b ≠ "")
    (hla : (pyLower a).data.length = la) (hlb : (pyLower b).data.length = lb)
    (hm : matchTotal (pyLower a).data (pyLower b).data = m)
    (h0 : la + lb ≠ 0) :
    fuzzy_similarity a b = 2 * (m : ℚ) / ((la : ℚ) + (lb : ℚ)) := by
  unfold fuzzy_similarity smScore
  rw [if_neg (by tauto), hla, hlb, hm, if_neg h0]

/-! Concrete evaluations of the embedded functions, used below to settle boundary
cases and counterexamples. -/

theorem ev_fscore_the : skill_fscore "the" [] "the" = 1 := by
  have h1 : fuzzy_similarity "the" "the" = 1 := by
    rw [fuzzy_similarity_eval "the" "the" 3 3 3 (by decide) (by decide) (by decide)
      (by decide) (by decide) (by decide)]
    norm_num
  have h2 : pyStrip (pyLower "the") = "the" := by decide
  simp only [skill_fscore, h2, h1, List.foldl_nil]
  norm_num

theorem ev_matched_the : skill_matched "the" [] "the" = true := by
  have h3 : skill_is_exact [] "the" = false := by decide
  simp only [skill_matched, h3, ev_fscore_the]
  norm_num

theorem ev_compute_the : compute_skill_match_score "the" ["the"] = (["the"], [], 100) := by
  have ht : normalize_tokens "the" = [] := by decide
  have hc : skill_credit "the" [] "the" = 0 := by
    simp only [skill_credit, ev_matched_the]
    norm_num
  simp only [compute_skill_match_score, ht, fuzz_credit_total, List.filter_cons,
    List.filter_nil, ev_matched_the, List.map_cons, List.map_nil, hc, List.sum_cons,
    List.sum_nil]
  norm_num [pyRound2, round_eq]

theorem ev_fscore_docker_python : skill_fscore "python" ["python"] "docker" = 1 / 6 := by
  have h1 : fuzzy_similarity "docker" "python" = 1 / 6 := by
    rw [fuzzy_similarity_eval "docker" "python" 1 6 6 (by decide) (by decide) (by decide)
      (by decide) (by decide) (by decide)]
    norm_num
  have h2 : pyStrip (pyLower "docker") = "docker" := by decide
  simp only [skill_fscore, h2, h1, List.foldl_cons, List.foldl_nil]
  norm_num

theorem ev_compute_python :
    compute_skill_match_score "python" ["python", "docker"] =
      (["python"], ["docker"], 50) := by
  have ht : normalize_tokens "python" = ["python"] := by decide
  have hmp : skill_matched "python" ["python"] "python" = true := by
    have : skill_is_exact ["python"] "python" = true := by decide
    simp [skill_matched, this]
  have hmd : skill_matched "python" ["python"] "docker" = false := by
    have : skill_is_exact ["python"] "docker" = false := by decide
    simp only [skill_matched, this, ev_fscore_docker_python]
    norm_num
  have hcp : skill_credit "python" ["python"] "python" = 0 := by
    simp only [skill_credit, hmp]
    norm_num
  have hcd : skill_credit "python" ["python"] "docker" = 0 := by
    simp only [skill_credit, hmd, ev_fscore_docker_python]
    norm_num
  simp only [compute_skill_match_score, ht, fuzz_credit_total, List.filter_cons,
    List.filter_nil, hmp, hmd, List.map_cons, List.map_nil, hcp, hcd, List.sum_cons,
    List.sum_nil]
  norm_num [pyRound2, round_eq]

theorem ev_fscore_docker_pydoc :
    skill_fscore "python doc" ["python", "doc"] "docker" = 2 / 3 := by
  have h1 : fuzzy_similarity "docker" "python doc" = 3 / 8 := by
    rw [fuzzy_similarity_eval "docker" "python doc" 3 6 10 (by decide) (by decide)
      (by decide) (by decide) (by decide) (by decide)]
    norm_num
  have h2 : fuzzy_similarity "docker" "python" = 1 / 6 := by
    rw [fuzzy_similarity_eval "docker" "python" 1 6 6 (by decide) (by decide) (by decide)
      (by decide) (by decide) (by decide)]
    norm_num
  have h3 : fuzzy_similarity "docker" "doc" = 2 / 3 := by
    rw [fuzzy_similarity_eval "docker" "doc" 3 6 3 (by decide) (by decide) (by decide)
      (by decide) (by decide) (by decide)]
    norm_num
  have h4 : pyStrip (pyLower "docker") = "docker" := by decide
  simp only [skill_fscore, h4, h1, h2, h3, List.foldl_cons, List.foldl_nil]
  norm_num

theorem ev_compute_pydoc :
    compute_skill_match_score "python doc" ["python", "docker"] =
      (["python"], ["docker"], 8333 / 100) := by
  have ht : normalize_tokens "python doc" = ["python", "doc"] := by decide
  have hmp : skill_matched "python doc" ["python", "doc"] "python" = true := by
    have : skill_is_exact ["python", "doc"] "python" = true := by decide
    simp [skill_matched, this]
  have hmd : skill_matched "python doc" ["python", "doc"] "docker" = false := by
    have : skill_is_exact ["python", "doc"] "docker" = false := by decide
    simp only [skill_matched, this, ev_fscore_docker_pydoc]
    norm_num
  have hcp : skill_credit "python doc" ["python", "doc"] "python" = 0 := by
    simp only [skill_credit, hmp]
    norm_num
  have hcd : skill_credit "python doc" ["python", "doc"] "docker" = 2 / 3 := by
    simp only [skill_credit, hmd, ev_fscore_docker_pydoc]
    norm_num
  simp only [compute_skill_match_score, ht, fuzz_credit_total, List.filter_cons,
    List.filter_nil, hmp, hmd, List.map_cons, List.map_nil, hcp, hcd, List.sum_cons,
    List.sum_nil]
  norm_num [pyRound2, round_eq]

theorem ev_fscore_boundary :
    skill_fscore "abcdefghijklm" (normalize_tokens "abcdefghijklm") "abcdefg" = 7 / 10 := by
  have ht : normalize_tokens "abcdefghijklm" = ["abcdefghijklm"] := by decide
  have h1 : fuzzy_similarity "abcdefg" "abcdefghijklm" = 7 / 10 := by
    rw [fuzzy_similarity_eval "abcdefg" "abcdefghijklm" 7 7 13 (by decide) (by decide)
      (by decide) (by decide) (by decide) (by decide)]
    norm_num
  have h2 : pyStrip (pyLower "abcdefg") = "abcdefg" := by decide
  rw [ht]
  simp only [skill_fscore, h2, h1, List.foldl_cons, List.foldl_nil]
  norm_num

/-! General lemmas about the embedded functions. -/

theorem matched_toFinset {α : Type} (m : α) (rk jd : List String) :
    (match_resume_to_job rk jd m).1.toFinset =
      if rk = [] ∨ jd = [] then ∅ else rk.toFinset ∩ jd.toFinset := by
  by_cases h : rk = [] ∨ jd = []
  · simp [match_resume_to_job, h]
  · have hjd : jd ≠ [] := by tauto
    rw [if_neg h]
    simp only [match_resume_to_job, if_neg h]
    rw [if_neg (fun hd => hjd ((List.dedup_eq_nil jd).mp hd))]
    ext x
    simp [pySetList, List.mem_dedup, List.mem_filter]

theorem missing_toFinset {α : Type} (m : α) (rk jd : List String) :
    (match_resume_to_job rk jd m).2.1.toFinset =
      if rk = [] ∨ jd = [] then jd.toFinset else jd.toFinset \ rk.toFinset := by
  by_cases h : rk = [] ∨ jd = []
  · simp [match_resume_to_job, h]
  · have hjd : jd ≠ [] := by tauto
    rw [if_neg h]
    simp only [match_resume_to_job, if_neg h]
    rw [if_neg (fun hd => hjd ((List.dedup_eq_nil jd).mp hd))]
    ext x
    simp [pySetList, List.mem_dedup, List.mem_filter]

theorem match_score_eq {α : Type} (m : α) (rk jd : List String) :
    (match_resume_to_job rk jd m).2.2 =
      if rk = [] ∨ jd = [] then 0
      else 100 * ((rk.toFinset ∩ jd.toFinset).card : ℚ) / (jd.toFinset.card : ℚ) := by
  by_cases h : rk = [] ∨ jd = []
  · simp [match_resume_to_job, h]
  · have hjd : jd ≠ [] := by tauto
    have hnd : (rk.dedup.filter (fun s => decide (s ∈ jd.dedup))).Nodup :=
      (List.nodup_dedup rk).filter _
    have hlen : (pySetList (rk.dedup.filter (fun s => decide (s ∈ jd.dedup)))).length =
        (rk.toFinset ∩ jd.toFinset).card := by
      rw [pySetList, List.Nodup.dedup hnd, ← List.toFinset_card_of_nodup hnd]
      congr 1
      ext x
      simp [List.mem_dedup, List.mem_filter]
    have hjlen : jd.dedup.length = jd.toFinset.card := by
      rw [← List.toFinset_card_of_nodup (List.nodup_dedup jd)]
      congr 1
      ext x
      simp [List.mem_dedup]
    rw [if_neg h]
    simp only [match_resume_to_job, if_neg h]
    rw [if_neg (fun hd => hjd ((List.dedup_eq_nil jd).mp hd)), hlen, hjlen]
    ring

theorem compute_matched_eq (rt : String) (js : List String) :
    (compute_skill_match_score rt js).1 =
      js.filter (skill_matched rt (normalize_tokens rt)) := rfl

theorem compute_missing_eq (rt : String) (js : List String) :
    (compute_skill_match_score rt js).2.1 =
      js.filter (fun s => !skill_matched rt (normalize_tokens rt) s) := rfl

theorem compute_score_eq (rt : String) (js : List String) :
    (compute_skill_match_score rt js).2.2 =
      pyRound2 (((((js.filter (skill_matched rt (normalize_tokens rt))).length : ℚ) +
        fuzz_credit_total rt (normalize_tokens rt) js) /
          ((max js.length 1 : ℕ) : ℚ)) * 100) := rfl

theorem skill_credit_nonneg (rt : String) (toks : List String) (s : String) :
    0 ≤ skill_credit rt toks s := by
  unfold skill_credit
  split_ifs with h1 h2
  · exact le_refl 0
  · exact le_trans (by norm_num) h2
  · exact le_refl 0

theorem skill_credit_lt_one (rt : String) (toks : List String) (s : String) :
    skill_credit rt toks s < 1 := by
  unfold skill_credit
  split_ifs with h1 h2
  · norm_num
  · have hm : ¬ ((7 : ℚ) / 10 ≤ skill_fscore rt toks s) := by
      intro hle
      have : skill_matched rt toks s = true := by
        simp [skill_matched, hle]
      exact h1 this
    push_neg at hm
    linarith
  · norm_num

theorem skill_credit_of_matched (rt : String) (toks : List String) (s : String)
    (h : skill_matched rt toks s = true) : skill_credit rt toks s = 0 := by
  simp [skill_credit, h]

theorem fuzz_credit_total_nil (rt : String) (toks : List String) :
    fuzz_credit_total rt toks [] = 0 := rfl

theorem fuzz_credit_total_cons (rt : String) (toks : List String) (s : String)
    (js : List String) :
    fuzz_credit_total rt toks (s :: js) =
      skill_credit rt toks s + fuzz_credit_total rt toks js := by
  simp [fuzz_credit_total]

theorem fuzz_credit_total_nonneg (rt : String) (toks : List String) (js : List String) :
    0 ≤ fuzz_credit_total rt toks js := by
  induction js with
  | nil => simp [fuzz_credit_total_nil]
  | cons s t ih =>
    rw [fuzz_credit_total_cons]
    have := skill_credit_nonneg rt toks s
    linarith

theorem count_add_credit_le (rt : String) (toks : List String) (js : List String) :
    ((js.filter (skill_matched rt toks)).length : ℚ) + fuzz_credit_total rt toks js ≤
      (js.length : ℚ) := by
  induction js with
  | nil => simp [fuzz_credit_total_nil]
  | cons s t ih =>
    rw [fuzz_credit_total_cons]
    by_cases h : skill_matched rt toks s = true
    · rw [List.filter_cons_of_pos h, skill_credit_of_matched rt toks s h]
      push_cast [List.length_cons]
      linarith
    · rw [List.filter_cons_of_neg h]
      have h1 := skill_credit_lt_one rt toks s
      push_cast [List.length_cons]
      linarith

theorem round_le_round {x y : ℚ} (h : x ≤ y) : round x ≤ round y := by
  rw [round_eq, round_eq]
  exact Int.floor_le_floor (by linarith)

theorem pyRound2_mono {x y : ℚ} (h : x ≤ y) : pyRound2 x ≤ pyRound2 y := by
  unfold pyRound2
  have : round (x * 100) ≤ round (y * 100) := round_le_round (by linarith)
  have hc : ((round (x * 100) : ℤ) : ℚ) ≤ ((round (y * 100) : ℤ) : ℚ) := by
    exact_mod_cast this
  linarith

theorem pyRound2_nonneg {x : ℚ} (h : 0 ≤ x) : 0 ≤ pyRound2 x := by
  have h0 : pyRound2 0 = 0 := by simp [pyRound2]
  rw [← h0]
  exact pyRound2_mono h

theorem pyRound2_le_100 {x : ℚ} (h : x ≤ 100) : pyRound2 x ≤ 100 := by
  have h0 : pyRound2 100 = 100 := by
    simp [pyRound2]
    norm_num [round_eq]
  rw [← h0]
  exact pyRound2_mono h

theorem pyToLowerChar_not_upper (c : Char) : isUpperChar (pyToLowerChar c) = false := by
  unfold pyToLowerChar
  cases hf : lowerPairs.find? (fun p => p.1 == c) with
  | some p =>
    have hp : p ∈ lowerPairs := List.mem_of_find?_eq_some hf
    have hall : ∀ q ∈ lowerPairs, isUpperChar q.2 = false := by decide
    exact hall p hp
  | none =>
    have hnone := List.find?_eq_none.mp hf
    unfold isUpperChar
    rw [List.any_eq_false]
    exact fun x hx => hnone x hx

theorem lower_of_alpha_not_upper (c : Char) (ha : isAlphaChar c = true)
    (hu : isUpperChar c = false) : isLowerChar c = true := by
  unfold isAlphaChar at ha
  rw [hu, Bool.false_or] at ha
  exact ha

theorem ntKeep_not_upper (c : Char) (h : ntKeepChar c = true) : isUpperChar c = false := by
  unfold ntKeepChar at h
  rcases Bool.or_eq_true_iff.mp h with h1 | h2
  · rcases Bool.or_eq_true_iff.mp h1 with hlo | hdig
    · obtain ⟨p, hp, hpe⟩ := List.any_eq_true.mp hlo
      have hall : ∀ q ∈ lowerPairs, isUpperChar q.2 = false := by decide
      rw [← eq_of_beq hpe]
      exact hall p hp
    · have hc : c ∈ digitChars := by
        unfold isDigitChar at hdig
        exact List.mem_of_elem_eq_true hdig
      fin_cases hc <;> decide
  · have hc : c ∈ ['#', '+', '-', '.'] := List.mem_of_elem_eq_true h2
    fin_cases hc <;> decide

theorem wordsAux_chars (p : Char → Prop) :
    ∀ (l acc : List Char), (∀ c ∈ l, p c) → (∀ c ∈ acc, p c) →
      ∀ w ∈ wordsAux l acc, ∀ c ∈ w, p c := by
  intro l
  induction l with
  | nil =>
    intro acc _ hacc w hw c hc
    unfold wordsAux at hw
    by_cases he : acc.isEmpty
    · simp [he] at hw
    · simp [he] at hw
      subst hw
      exact hacc c (List.mem_reverse.mp hc)
  | cons d ds ih =>
    intro acc hl hacc w hw c hc
    have hd : p d := hl d (List.mem_cons_self d ds)
    have hds : ∀ x ∈ ds, p x := fun x hx => hl x (List.mem_cons_of_mem d hx)
    unfold wordsAux at hw
    by_cases hsp : isSpaceChar d
    · rw [if_pos hsp] at hw
      by_cases he : acc.isEmpty
      · rw [if_pos he] at hw
        exact ih [] hds (by simp) w hw c hc
      · rw [if_neg he] at hw
        rcases List.mem_cons.mp hw with hw1 | hw2
        · subst hw1
          exact hacc c (List.mem_reverse.mp hc)
        · exact ih [] hds (by simp) w hw2 c hc
    · rw [if_neg hsp] at hw
      refine ih (d :: acc) hds ?_ w hw c hc
      intro x hx
      rcases List.mem_cons.mp hx with hx1 | hx2
      · exact hx1 ▸ hd
      · exact hacc x hx2

/-! Claim theorems. -/

/-- C1: for every resume input and required-skill list, the matched and missing outputs
partition the set of required skills — their union (as sets) is the set of required
skills and they are disjoint — both for `match_resume_to_job` and for
`compute_skill_match_score`. -/
theorem matcher_classifies_each_required_skill_once :
    (∀ (α : Type) (m : α) (rk jd : List String),
      (match_resume_to_job rk jd m).1.toFinset ∪ (match_resume_to_job rk jd m).2.1.toFinset
          = jd.toFinset ∧
        Disjoint (match_resume_to_job rk jd m).1.toFinset
          (match_resume_to_job rk jd m).2.1.toFinset) ∧
    (∀ (rt : String) (js : List String),
      (compute_skill_match_score rt js).1.toFinset ∪
          (compute_skill_match_score rt js).2.1.toFinset = js.toFinset ∧
        Disjoint (compute_skill_match_score rt js).1.toFinset
          (compute_skill_match_score rt js).2.1.toFinset) := by
  constructor
  · intro α m rk jd
    rw [matched_toFinset, missing_toFinset]
    by_cases h : rk = [] ∨ jd = []
    · simp [h]
    · rw [if_neg h, if_neg h]
      constructor
      · ext x
        simp only [Finset.mem_union, Finset.mem_inter, Finset.mem_sdiff]
        tauto
      · rw [Finset.disjoint_left]
        intro x hx hx2
        rw [Finset.mem_inter] at hx
        rw [Finset.mem_sdiff] at hx2
        exact hx2.2 hx.1
  · intro rt js
    constructor
    · rw [compute_matched_eq, compute_missing_eq]
      ext x
      simp only [Finset.mem_union, List.mem_toFinset, List.mem_filter, Bool.not_eq_true']
      constructor
      · rintro (⟨hx, _⟩ | ⟨hx, _⟩) <;> exact hx
      · intro hx
        cases hb : skill_matched rt (normalize_tokens rt) x
        · exact Or.inr ⟨hx, rfl⟩
        · exact Or.inl ⟨hx, rfl⟩
    · rw [compute_matched_eq, compute_missing_eq, Finset.disjoint_left]
      intro x hx hx2
      rw [List.mem_toFinset, List.mem_filter] at hx hx2
      rw [Bool.not_eq_true'] at hx2
      rw [hx.2] at hx2
      exact absurd hx2.2 (by simp)

/-- C4: `match_resume_to_job` returns the same triple for any two values (of any two
types) of its `model` argument; the embedding model does not influence the output. -/
theorem match_ignores_model (α β : Type) (m₁ : α) (m₂ : β) (rk jd : List String) :
    match_resume_to_job rk jd m₁ = match_resume_to_job rk jd m₂ := rfl

/-- C5 counterexample: the claim that the matched list always preserves the input
ordering of the required skills fails for `match_resume_to_job`: its matched list is
produced from a Python `set`, whose iteration order is unrelated to the required-skill
list.  At `resume_keywords = ["a", "b"]`, `jd_skills = ["b", "a"]` the model yields
matched `["a", "b"]`, which is not an order-preserving sublist of `["b", "a"]`. -/
theorem matched_order_counterexample :
    (match_resume_to_job ["a", "b"] ["b", "a"] ()).1 = ["a", "b"] ∧
      ¬ (match_resume_to_job ["a", "b"] ["b", "a"] ()).1.Sublist ["b", "a"] := by
  have h : (match_resume_to_job ["a", "b"] ["b", "a"] ()).1 = ["a", "b"] := by decide
  refine ⟨h, ?_⟩
  rw [h]
  intro hs
  exact absurd (hs.eq_of_length (by decide)) (by decide)

/-- C5 amended: the matched list returned by `compute_skill_match_score` preserves the
input ordering of `job_skills` (it is an order-preserving sublist); `match_resume_to_job`
gives no such guarantee, its matched list being a Python set. -/
theorem compute_matched_preserves_order (rt : String) (js : List String) :
    (compute_skill_match_score rt js).1.Sublist js := by
  rw [compute_matched_eq]
  exact List.filter_sublist js

/-- C6: both matchers return a score in `[0, 100]`; in `compute_skill_match_score` the
exact-match count plus the fuzzy half-credit total never exceeds the number of required
skills. -/
theorem score_in_range :
    (∀ (α : Type) (m : α) (rk jd : List String),
      0 ≤ (match_resume_to_job rk jd m).2.2 ∧ (match_resume_to_job rk jd m).2.2 ≤ 100) ∧
    (∀ (rt : String) (js : List String),
      0 ≤ (compute_skill_match_score rt js).2.2 ∧
        (compute_skill_match_score rt js).2.2 ≤ 100) ∧
    (∀ (rt : String) (js : List String),
      ((compute_skill_match_score rt js).1.length : ℚ) +
        fuzz_credit_total rt (normalize_tokens rt) js ≤ (js.length : ℚ)) := by
  refine ⟨?_, ?_, ?_⟩
  · intro α m rk jd
    rw [match_score_eq]
    by_cases h : rk = [] ∨ jd = []
    · simp [h]
    · rw [if_neg h]
      have hjd : jd ≠ [] := by tauto
      have hcard : 0 < (jd.toFinset.card : ℚ) := by
        have hne : jd.toFinset.Nonempty := by
          obtain ⟨x, hx⟩ := List.exists_mem_of_ne_nil jd hjd
          exact ⟨x, List.mem_toFinset.mpr hx⟩
        exact_mod_cast Finset.card_pos.mpr hne
      have hsub : ((rk.toFinset ∩ jd.toFinset).card : ℚ) ≤ (jd.toFinset.card : ℚ) := by
        exact_mod_cast Finset.card_le_card (Finset.inter_subset_right)
      constructor
      · positivity
      · rw [div_le_iff₀ hcard]
        nlinarith
  · intro rt js
    rw [compute_score_eq]
    have hnum0 : (0 : ℚ) ≤
        ((js.filter (skill_matched rt (normalize_tokens rt))).length : ℚ) +
          fuzz_credit_total rt (normalize_tokens rt) js :=
      add_nonneg (by positivity) (fuzz_credit_total_nonneg rt (normalize_tokens rt) js)
    have hnum : ((js.filter (skill_matched rt (normalize_tokens rt))).length : ℚ) +
        fuzz_credit_total rt (normalize_tokens rt) js ≤ (js.length : ℚ) :=
      count_add_credit_le rt (normalize_tokens rt) js
    have hden1 : (1 : ℚ) ≤ ((max js.length 1 : ℕ) : ℚ) := by
      exact_mod_cast Nat.le_max_right js.length 1
    have hden0 : (0 : ℚ) < ((max js.length 1 : ℕ) : ℚ) := lt_of_lt_of_le one_pos hden1
    have hlen : (js.length : ℚ) ≤ ((max js.length 1 : ℕ) : ℚ) := by
      exact_mod_cast Nat.le_max_left js.length 1
    have hraw0 : (0 : ℚ) ≤
        (((js.filter (skill_matched rt (normalize_tokens rt))).length : ℚ) +
          fuzz_credit_total rt (normalize_tokens rt) js) / ((max js.length 1 : ℕ) : ℚ) :=
      div_nonneg hnum0 (le_of_lt hden0)
    have hraw1 :
        (((js.filter (skill_matched rt (normalize_tokens rt))).length : ℚ) +
          fuzz_credit_total rt (normalize_tokens rt) js) / ((max js.length 1 : ℕ) : ℚ) ≤ 1 :=
      (div_le_one hden0).mpr (le_trans hnum hlen)
    constructor
    · exact pyRound2_nonneg (by nlinarith)
    · exact pyRound2_le_100 (by nlinarith)
  · intro rt js
    rw [compute_matched_eq]
    exact count_add_credit_le rt (normalize_tokens rt) js

/-- C8 counterexample: the claim that a (weak) superset of matched skills implies a
score at least as large fails for `compute_skill_match_score`: resumes `"python"` and
`"python doc"` against `["python", "docker"]` both match exactly `{"python"}`, yet the
first scores `50` and the second `83.33`, because the near-miss token `"doc"` earns
fuzzy half credit that is added to the score while `"docker"` stays missing. -/
theorem score_not_monotone_counterexample :
    (compute_skill_match_score "python doc" ["python", "docker"]).1.toFinset ⊆
        (compute_skill_match_score "python" ["python", "docker"]).1.toFinset ∧
      (compute_skill_match_score "python" ["python", "docker"]).2.2 <
        (compute_skill_match_score "python doc" ["python", "docker"]).2.2 := by
  rw [ev_compute_python, ev_compute_pydoc]
  constructor
  · simp
  · norm_num

/-- C8 amended: monotonicity in the matched set holds for `match_resume_to_job`:
holding the required-skill list fixed, when the matched set of one call contains the
matched set of another, the first score is at least the second.  For `compute_skill_match_score` the score also
depends on the fuzzy half credit of missing skills, so the matched set alone does not
determine the order of scores. -/
theorem match_score_monotone {α β : Type} (m₁ : α) (m₂ : β) (r₁ r₂ jd : List String)
    (h : (match_resume_to_job r₂ jd m₂).1.toFinset ⊆
      (match_resume_to_job r₁ jd m₁).1.toFinset) :
    (match_resume_to_job r₂ jd m₂).2.2 ≤ (match_resume_to_job r₁ jd m₁).2.2 := by
  rw [matched_toFinset, matched_toFinset] at h
  rw [match_score_eq, match_score_eq]
  by_cases h2 : r₂ = [] ∨ jd = []
  · rw [if_pos h2]
    by_cases h1 : r₁ = [] ∨ jd = []
    · rw [if_pos h1]
    · rw [if_neg h1]
      positivity
  · rw [if_neg h2]
    by_cases h1 : r₁ = [] ∨ jd = []
    · rw [if_pos h1, if_neg h2] at h
      have hz : r₂.toFinset ∩ jd.toFinset = ∅ := Finset.subset_empty.mp h
      rw [if_pos h1, hz]
      simp
    · rw [if_neg h1, if_neg h2] at h
      rw [if_neg h1]
      have hc : ((r₂.toFinset ∩ jd.toFinset).card : ℚ) ≤
          ((r₁.toFinset ∩ jd.toFinset).card : ℚ) := by
        exact_mod_cast Finset.card_le_card h
      gcongr

theorem match_score_monotone_witness :
    (match_resume_to_job ([] : List String) ["a"] ()).2.2 ≤
      (match_resume_to_job ["a"] ["a"] ()).2.2 :=
  match_score_monotone () () ["a"] [] ["a"] (by decide)

/-- C2 counterexample: the score of `match_resume_to_job` is not
`round(100 |matched| / |job_required_skills|, 2)`: with one of three required skills
matched the source returns the unrounded `100/3`, while the claimed formula gives
`33.33`. -/
theorem score_rounding_counterexample :
    (match_resume_to_job ["py"] ["py", "b", "c"] ()).2.2 = 100 / 3 ∧
      pyRound2 (100 * (1 : ℚ) / 3) = 3333 / 100 ∧
      (100 : ℚ) / 3 ≠ 3333 / 100 := by
  refine ⟨?_, ?_, by norm_num⟩
  · rw [match_score_eq, if_neg (by simp)]
    have h1 : (((["py"] : List String).toFinset ∩
        (["py", "b", "c"] : List String).toFinset).card) = 1 := by decide
    have h2 : ((["py", "b", "c"] : List String).toFinset.card) = 3 := by decide
    rw [h1, h2]
    norm_num
  · norm_num [pyRound2, round_eq]

/-- C2 amended: for nonempty inputs, `match_resume_to_job` returns the exact, unrounded
value `100 * |matched| / |distinct required skills|` (both cardinalities are of
deduplicated sets).  Only `compute_skill_match_score` rounds to two decimals, and its
numerator adds fuzzy half credit to the matched count, so its score is not determined
by the matched count alone. -/
theorem match_score_formula {α : Type} (m : α) (rk jd : List String)
    (h1 : rk ≠ []) (h2 : jd ≠ []) :
    (match_resume_to_job rk jd m).2.2 =
      100 * ((rk.toFinset ∩ jd.toFinset).card : ℚ) / (jd.toFinset.card : ℚ) := by
  rw [match_score_eq, if_neg (by tauto)]

theorem match_score_formula_witness :
    (match_resume_to_job ["a"] ["a"] ()).2.2 =
      100 * (((["a"] : List String).toFinset ∩ (["a"] : List String).toFinset).card : ℚ) /
        (((["a"] : List String).toFinset.card : ℚ)) :=
  match_score_formula () ["a"] ["a"] (by decide) (by decide)

/-- C7: the threshold comparison of `compute_skill_match_score` is inclusive: a
required skill whose fuzzy evidence score is exactly the `0.7` threshold is classified
as matched. -/
theorem threshold_boundary_matched (rt : String) (js : List String) (s : String)
    (hmem : s ∈ js)
    (hf : skill_fscore rt (normalize_tokens rt) s = 7 / 10) :
    s ∈ (compute_skill_match_score rt js).1 := by
  rw [compute_matched_eq, List.mem_filter]
  refine ⟨hmem, ?_⟩
  simp [skill_matched, hf]

theorem threshold_boundary_matched_witness :
    "abcdefg" ∈ (compute_skill_match_score "abcdefghijklm" ["abcdefg"]).1 :=
  threshold_boundary_matched "abcdefghijklm" ["abcdefg"] "abcdefg" (by decide)
    ev_fscore_boundary

/-- C3 amended: the empty-input rule holds for `match_resume_to_job` exactly as
claimed (empty keyword list or empty skill list gives matched `[]`, missing the full
skill list, score `0`).  `compute_skill_match_score` guarantees it when the skill list
is empty or the resume text itself is empty; a nonempty text whose evidence set is
empty can still match skills through full-text fuzzy comparison (see the
counterexample). -/
theorem empty_input_returns_zero :
    (∀ (α : Type) (m : α) (rk jd : List String), rk = [] ∨ jd = [] →
      match_resume_to_job rk jd m = ([], jd, 0)) ∧
    (∀ rt : String, compute_skill_match_score rt [] = ([], [], 0)) ∧
    (∀ js : List String, compute_skill_match_score "" js = ([], js, 0)) := by
  refine ⟨?_, ?_, ?_⟩
  · intro α m rk jd h
    unfold match_resume_to_job
    rw [if_pos h]
  · intro rt
    simp only [compute_skill_match_score, List.filter_nil, fuzz_credit_total,
      List.map_nil, List.sum_nil, List.length_nil]
    norm_num [pyRound2]
  · intro js
    have hex : ∀ s : String, skill_is_exact [] s = false := by
      intro s
      simp [skill_is_exact]
    have hfs : ∀ s : String, skill_fscore "" [] s = 0 := by
      intro s
      simp [skill_fscore, fuzzy_similarity]
    have hm : ∀ s : String, skill_matched "" [] s = false := by
      intro s
      simp only [skill_matched, hex s, hfs s, Bool.false_or]
      norm_num
    have hcred : ∀ s : String, skill_credit "" [] s = 0 := by
      intro s
      simp only [skill_credit, hm s, hfs s]
      norm_num
    have htok : normalize_tokens "" = [] := rfl
    have hmatched : js.filter (skill_matched "" (normalize_tokens "")) = [] := by
      rw [htok]
      exact List.filter_eq_nil_iff.mpr (fun s _ => by rw [hm s]; simp)
    have hmissing : js.filter (fun s => !skill_matched "" (normalize_tokens "") s) = js := by
      rw [htok]
      refine List.filter_eq_self.mpr (fun s _ => ?_)
      rw [hm s]
      rfl
    have hcredit : fuzz_credit_total "" (normalize_tokens "") js = 0 := by
      rw [htok]
      unfold fuzz_credit_total
      apply List.sum_eq_zero
      intro x hx
      obtain ⟨s, _, rfl⟩ := List.mem_map.mp hx
      exact hcred s
    simp only [compute_skill_match_score, hmatched, hmissing, hcredit, List.length_nil]
    norm_num [pyRound2]

theorem empty_input_returns_zero_witness :
    match_resume_to_job ([] : List String) ["x"] () = ([], ["x"], 0) :=
  empty_input_returns_zero.1 Unit () [] ["x"] (Or.inl rfl)

/-- C3 counterexample: the resume text `"the"` has an empty evidence set (its only
token is a stopword), yet `compute_skill_match_score` matches the required skill
`"the"` through full-text fuzzy similarity and returns score `100`, not
`(matched, missing, score) = ([], ["the"], 0)` as the claim requires. -/
theorem empty_evidence_still_matches_counterexample :
    normalize_tokens "the" = [] ∧
      compute_skill_match_score "the" ["the"] = (["the"], [], 100) ∧
      compute_skill_match_score "the" ["the"] ≠ ([], ["the"], 0) := by
  refine ⟨by decide, ev_compute_the, ?_⟩
  rw [ev_compute_the]
  intro h
  exact absurd (congrArg Prod.fst h) (by decide)

/-- C10: `create_application` persists the row in phase `"Round 1"` exactly when the
supplied match score is strictly greater than `70`, and in phase `"Rejected"`
otherwise; a score of exactly `70` yields `"Rejected"`, and no application is ever
created in an `"Applied"` phase. -/
theorem create_application_phase_rule (uid : Int) (nm em ph jr : String)
    (sk : List String) (s : ℚ) :
    ((create_application uid nm em ph sk jr s).phase = "Round 1" ↔ 70 < s) ∧
      ((create_application uid nm em ph sk jr s).phase = "Rejected" ↔ ¬ 70 < s) ∧
      (create_application uid nm em ph sk jr 70).phase = "Rejected" ∧
      (create_application uid nm em ph sk jr s).phase ≠ "Applied" := by
  refine ⟨?_, ?_, ?_, ?_⟩
  · by_cases h : 70 < s <;> simp [create_application, h]
  · by_cases h : 70 < s <;> simp [create_application, h]
  · norm_num [create_application]
  · by_cases h : 70 < s <;> simp [create_application, h]

/-- C9 amended: `extract_keywords` produces exactly what the claim says — a
deduplicated list of lowercase, purely alphabetic tokens, none a stopword, each of
length at least 2.  `normalize_tokens` produces a deduplicated list of non-stopword
tokens with no uppercase characters, drawn from the class `[a-z0-9#+\-.]`, but keeps
digits, the symbols `# + - .`, and length-1 tokens, so it is not restricted to
alphabetic tokens of length at least 2 (see the counterexample). -/
theorem evidence_tokens_wellformed :
    (∀ t w : String, w ∈ extract_keywords t →
      pyIsAlpha w = true ∧ (∀ c ∈ w.data, isLowerChar c = true) ∧
        w ∉ stop_words ∧ 2 ≤ w.length) ∧
    (∀ t : String, (extract_keywords t).Nodup) ∧
    (∀ t w : String, w ∈ normalize_tokens t →
      w ≠ "" ∧ (∀ c ∈ w.data, ntKeepChar c = true) ∧
        (∀ c ∈ w.data, isUpperChar c = false) ∧ w ∉ stop_words) ∧
    (∀ t : String, (normalize_tokens t).Nodup) := by
  refine ⟨?_, ?_, ?_, ?_⟩
  · intro t w hw
    unfold extract_keywords at hw
    by_cases ht : t = ""
    · simp [ht] at hw
    · rw [if_neg ht] at hw
      rw [pySetList] at hw
      obtain ⟨hwt, hpred⟩ := List.mem_filter.mp (List.mem_dedup.mp hw)
      obtain ⟨hp1, hp3⟩ := Bool.and_eq_true_iff.mp hpred
      obtain ⟨halpha, hstop⟩ := Bool.and_eq_true_iff.mp hp1
      have hnstop : w ∉ stop_words :=
        of_decide_eq_false (by simpa using hstop)
      have hlen : 2 ≤ w.length := by
        have := of_decide_eq_true hp3
        omega
      obtain ⟨lw, hlw, rfl⟩ := List.mem_map.mp hwt
      have hclean : ∀ c ∈ ((pyLower t).data).filter
          (fun c => isWordChar c || isSpaceChar c), isUpperChar c = false := by
        intro c hc
        have hcm : c ∈ (pyLower t).data := (List.mem_filter.mp hc).1
        obtain ⟨c₀, _, rfl⟩ := List.mem_map.mp hcm
        exact pyToLowerChar_not_upper c₀
      have hchars := wordsAux_chars (fun c => isUpperChar c = false) _ []
        hclean (by simp) lw hlw
      refine ⟨halpha, ?_, hnstop, hlen⟩
      intro c hc
      have hall : ∀ c ∈ (String.mk lw).data, isAlphaChar c = true :=
        List.all_eq_true.mp (Bool.and_eq_true_iff.mp halpha).2
      exact lower_of_alpha_not_upper c (hall c hc) (hchars c hc)
  · intro t
    unfold extract_keywords
    by_cases ht : t = ""
    · simp [ht]
    · rw [if_neg ht]
      exact List.nodup_dedup _
  · intro t w hw
    unfold normalize_tokens at hw
    rw [pySetList] at hw
    obtain ⟨hwt, hpred⟩ := List.mem_filter.mp (List.mem_dedup.mp hw)
    obtain ⟨hp1, hstop⟩ := Bool.and_eq_true_iff.mp hpred
    obtain ⟨hne, _⟩ := Bool.and_eq_true_iff.mp hp1
    have hnstop : w ∉ stop_words :=
      of_decide_eq_false (by simpa using hstop)
    have hwne : w ≠ "" := by
      intro he
      rw [he] at hne
      exact absurd hne (by decide)
    obtain ⟨tok, _, rfl⟩ := List.mem_map.mp hwt
    have hkeep : ∀ c ∈ (String.mk (tok.data.filter ntKeepChar)).data,
        ntKeepChar c = true := by
      intro c hc
      exact (List.mem_filter.mp hc).2
    refine ⟨hwne, hkeep, ?_, hnstop⟩
    intro c hc
    exact ntKeep_not_upper c (hkeep c hc)
  · intro t
    unfold normalize_tokens
    exact List.nodup_dedup _

theorem evidence_tokens_wellformed_witness :
    "python" ∈ extract_keywords "Python" ∧
      (pyIsAlpha "python" = true ∧ (∀ c ∈ ("python" : String).data, isLowerChar c = true) ∧
        "python" ∉ stop_words ∧ 2 ≤ ("python" : String).length) :=
  ⟨by decide, evidence_tokens_wellformed.1 "Python" "python" (by decide)⟩

/-- C9 counterexample: `normalize_tokens` does not satisfy the claimed shape of the
evidence set: it keeps the length-1 token `"c"` and the non-alphabetic token `"c++"`. -/
theorem normalize_tokens_counterexample :
    ("c" ∈ normalize_tokens "c" ∧ ("c" : String).length = 1) ∧
      ("c++" ∈ normalize_tokens "c++" ∧ pyIsAlpha "c++" = false) :=
  ⟨⟨by decide, by decide⟩, by decide, by decide⟩

end ResumeAnalyzer
